import Mathlib

/-!
Verification development for the `vite-plugin-pwa-manifest` plugin
(source: `src/index.ts`).

The development shallow-embeds the plugin's pure core in Lean:
a JavaScript-object / JSON value model, the configuration record,
the manifest builder (`buildManifest` and its helpers
`ensureLeadingSlash`, `defaultIcons`, `normalizeIcons`,
`hasMaskableIcon`, `readPkgVersion`/`gitShort` modelled through an
environment record), the serializer (`JSON.stringify(json, null, 2)`
plus trailing newline, and the SHA-1 based `hashETag`), the dev-route
request handler, and the `writeFileIfChanged` disk mirror over an
explicit filesystem state.

Conventions of the embedding:
- JavaScript `undefined` at object-field position is `Option.none` in a
  `Doc` (an association list of key/optional-value pairs, in assembly
  order); `JSON.stringify` drops such fields, which the model mirrors
  with `definedEntries`.
- External effects (reading `package.json`, invoking `git`, the clock)
  are inputs collected in a `BuildEnv` record; `runCommand` results are
  `Option String` (the source maps empty trimmed output to `null`).
- JavaScript numbers appearing in JSON are restricted to integers in
  the embedding (the builder itself never emits numbers; only the
  user-supplied `extra` map or `transform` could, and fractional
  values are IEEE floats, outside the embedding).
-/

namespace PwaManifest

/-- JSON values (the subset relevant to the manifest document; numeric
values restricted to integers). -/
inductive JSON where
  | str : String → JSON
  | num : Int → JSON
  | bool : Bool → JSON
  | null : JSON
  | arr : List JSON → JSON
  | obj : List (String × JSON) → JSON

/-- A JavaScript object as assembled by the builder: an association
list in key-insertion order whose values may be `undefined` (`none`). -/
abbrev Doc := List (String × Option JSON)

/-- The fields of a JavaScript object that survive `JSON.stringify`:
entries whose value is not `undefined`, in order. -/
def definedEntries (d : Doc) : List (String × JSON) :=
  d.filterMap fun kv => kv.2.map fun v => (kv.1, v)

/-- The JSON denotation of an assembled JavaScript object: its defined
entries as a JSON object (this is exactly what `JSON.stringify` emits). -/
def docToJSON (d : Doc) : JSON := .obj (definedEntries d)

/-- The `purpose` field of an icon descriptor
(`"any" | "maskable" | "monochrome" | "any maskable"` in the source). -/
inductive Purpose where
  | any | maskable | monochrome | anyMaskable
deriving DecidableEq

/-- The wire string of a `purpose` value. -/
def Purpose.toStr : Purpose → String
  | .any => "any"
  | .maskable => "maskable"
  | .monochrome => "monochrome"
  | .anyMaskable => "any maskable"

/-- `ManifestIcon` from the source (`src`, `sizes`, optional `type`,
optional `purpose`). -/
structure ManifestIcon where
  src : String
  sizes : String
  type : Option String := none
  purpose : Option Purpose := none
deriving DecidableEq

/-- `Screenshot` from the source. -/
structure Screenshot where
  src : String
  sizes : Option String := none
  type : Option String := none
  label : Option String := none
  form_factor : Option String := none
deriving DecidableEq

/-- An entry of `related_applications`. -/
structure RelatedApp where
  platform : String
  url : Option String := none
  id : Option String := none
deriving DecidableEq

/-- An entry of `protocol_handlers`. -/
structure ProtocolHandler where
  protocol : String
  url : String
deriving DecidableEq

/-- The two build/serve modes. -/
inductive Mode where
  | development | production
deriving DecidableEq

/-- `ManifestOptions` from the source.  `extra` is an association list
standing for `Record<string, unknown>` (keys assumed distinct, as in a
JavaScript object); `transform` is the optional user hook. -/
structure ManifestOptions where
  outputDir : Option String := none
  filename : Option String := none
  name : Option String := none
  short_name : Option String := none
  description : Option String := none
  lang : Option String := none
  dir : Option String := none
  start_url : Option String := none
  scope : Option String := none
  id : Option String := none
  display : Option String := none
  orientation : Option String := none
  background_color : Option String := none
  theme_color : Option String := none
  categories : Option (List String) := none
  prefer_related_applications : Option Bool := none
  related_applications : Option (List RelatedApp) := none
  protocol_handlers : Option (List ProtocolHandler) := none
  icons : Option (List ManifestIcon) := none
  screenshots : Option (List Screenshot) := none
  extra : Option Doc := none
  includeBuildMeta : Option Bool := none
  transform : Option (Doc → Mode → Doc) := none

/-- The external-world inputs of one build: the result of
`readPkgVersion()`, the results of the three `runCommand` git
invocations inside `gitShort()` (a `runCommand` result is `null` or a
nonempty trimmed string), and the value of `new Date().toISOString()`. -/
structure BuildEnv where
  pkgVersion : Option String := none
  gitExact : Option String := none
  gitNear : Option String := none
  gitHash : Option String := none
  now : String := ""

/-- JavaScript `a || b` on `string | null` operands: `a` wins unless it
is `null` or the empty string. -/
def jsOr (a b : Option String) : Option String :=
  match a with
  | some s => if s = "" then b else some s
  | none => b

/-- `gitShort()` from the source: the first truthy result of the three
git commands, else `null`. -/
def gitShort (env : BuildEnv) : Option String :=
  jsOr (jsOr (jsOr env.gitExact env.gitNear) env.gitHash) none

/-- `ensureLeadingSlash` from the source:
`s.startsWith("/") ? s : "/" + s`.  The JavaScript
`s.startsWith("/")` test is embedded as "the first character is `/`". -/
def startsWithSlash (s : String) : Bool :=
  match s.data with
  | c :: _ => c = '/'
  | [] => false

def ensureLeadingSlash (s : String) : String :=
  if startsWithSlash s then s else "/" ++ s

/-- `defaultIcons()` from the source. -/
def defaultIcons : List ManifestIcon :=
  [ { src := "/icons/icon-192x192.png", sizes := "192x192",
      type := some "image/png", purpose := some .anyMaskable },
    { src := "/icons/icon-512x512.png", sizes := "512x512",
      type := some "image/png", purpose := some .anyMaskable } ]

/-- The dedup key of `normalizeIcons`:
`src + "|" + sizes + "|" + (purpose ?? "")`. -/
def iconKey (i : ManifestIcon) : String :=
  i.src ++ "|" ++ i.sizes ++ "|" ++ (match i.purpose with
    | some p => p.toStr
    | none => "")

/-- The slash-normalization step of `normalizeIcons`. -/
def normIcon (i : ManifestIcon) : ManifestIcon :=
  { i with src := ensureLeadingSlash i.src }

/-- The key-based first-seen filter of `normalizeIcons` (the source's
`Set`-backed `filter`), with the seen set made explicit. -/
def dedupIcons : List ManifestIcon → List String → List ManifestIcon
  | [], _ => []
  | i :: rest, seen =>
      if iconKey i ∈ seen then dedupIcons rest seen
      else i :: dedupIcons rest (iconKey i :: seen)

/-- `normalizeIcons` from the source: default icons when the list is
absent, slash-normalize every `src`, then drop later entries whose key
was already seen. -/
def normalizeIcons (icons : Option (List ManifestIcon)) : List ManifestIcon :=
  dedupIcons ((icons.getD defaultIcons).map normIcon) []

/-- Substring test, embedding JavaScript `String.prototype.includes`. -/
def listHasPrefix : List Char → List Char → Bool
  | _, [] => true
  | [], _ :: _ => false
  | c :: cs, p :: ps => c = p && listHasPrefix cs ps

def listHasSub : List Char → List Char → Bool
  | [], pat => pat.isEmpty
  | l@(_ :: cs), pat => listHasPrefix l pat || listHasSub cs pat

def strIncludes (s pat : String) : Bool := listHasSub s.data pat.data

/-- `hasMaskableIcon` from the source:
`(icons ?? []).some(i => (i.purpose ?? "").includes("maskable"))`. -/
def hasMaskableIcon (icons : Option (List ManifestIcon)) : Bool :=
  (icons.getD []).any fun i =>
    strIncludes (match i.purpose with | some p => p.toStr | none => "") "maskable"

/-- JSON encoding of an icon object (fields in declaration order;
absent optional fields are absent from the object). -/
def iconToJSON (i : ManifestIcon) : JSON :=
  .obj ([("src", .str i.src), ("sizes", .str i.sizes)]
    ++ (match i.type with | some t => [("type", JSON.str t)] | none => [])
    ++ (match i.purpose with | some p => [("purpose", JSON.str p.toStr)] | none => []))

def screenshotToJSON (s : Screenshot) : JSON :=
  .obj ([("src", .str s.src)]
    ++ (match s.sizes with | some v => [("sizes", JSON.str v)] | none => [])
    ++ (match s.type with | some v => [("type", JSON.str v)] | none => [])
    ++ (match s.label with | some v => [("label", JSON.str v)] | none => [])
    ++ (match s.form_factor with | some v => [("form_factor", JSON.str v)] | none => []))

def relatedAppToJSON (r : RelatedApp) : JSON :=
  .obj ([("platform", .str r.platform)]
    ++ (match r.url with | some v => [("url", JSON.str v)] | none => [])
    ++ (match r.id with | some v => [("id", JSON.str v)] | none => []))

def protocolHandlerToJSON (p : ProtocolHandler) : JSON :=
  .obj [("protocol", .str p.protocol), ("url", .str p.url)]

/-- The `base` object literal of `buildManifest`, in source order; a
field written `x ?? undefined` is `none` when `x` is absent. -/
def buildBase (opts : ManifestOptions) : Doc :=
  let theme := opts.theme_color.getD "#0a131b"
  [ ("lang", some (.str (opts.lang.getD "en"))),
    ("dir", some (.str (opts.dir.getD "ltr"))),
    ("name", some (.str (opts.name.getD "My App"))),
    ("short_name", some (.str (opts.short_name.getD "App"))),
    ("description", opts.description.map .str),
    ("start_url", some (.str (ensureLeadingSlash (opts.start_url.getD "/")))),
    ("scope", some (.str (ensureLeadingSlash (opts.scope.getD "/")))),
    ("id", some (.str (ensureLeadingSlash (opts.id.getD "/")))),
    ("display", some (.str (opts.display.getD "standalone"))),
    ("orientation", opts.orientation.map .str),
    ("background_color", some (.str (opts.background_color.getD theme))),
    ("theme_color", some (.str theme)),
    ("categories", opts.categories.map fun l => .arr (l.map .str)),
    ("prefer_related_applications", opts.prefer_related_applications.map .bool),
    ("related_applications", opts.related_applications.map fun l => .arr (l.map relatedAppToJSON)),
    ("protocol_handlers", opts.protocol_handlers.map fun l => .arr (l.map protocolHandlerToJSON)),
    ("icons", some (.arr ((normalizeIcons opts.icons).map iconToJSON))),
    ("screenshots", opts.screenshots.map fun l => .arr (l.map screenshotToJSON)) ]

/-- The three build-meta assignments of `buildManifest`, appended when
`opts.includeBuildMeta !== false`. -/
def withMeta (opts : ManifestOptions) (env : BuildEnv) (d : Doc) : Doc :=
  if opts.includeBuildMeta = some false then d
  else d ++
    [ ("pkgVersion", env.pkgVersion.map .str),
      ("version", ((gitShort env).orElse fun _ => env.pkgVersion).map .str),
      ("buildTime", some (.str env.now)) ]

/-- JavaScript object spread merge — the source spreads `base` and
then `extra` into one object literal: keys of the first object keep
their position, values overridden by the second object on collision;
fresh keys of the second object are appended in its order. -/
def jsMerge (a b : Doc) : Doc :=
  a.map (fun kv => (kv.1, ((b.lookup kv.1).getD kv.2)))
    ++ b.filter fun kv => (a.lookup kv.1).isNone

/-- `buildManifest` from the source: assemble `base`, attach build
meta, merge `extra`, apply `transform` if configured. -/
def buildManifest (opts : ManifestOptions) (mode : Mode) (env : BuildEnv) : Doc :=
  let merged := jsMerge (withMeta opts env (buildBase opts)) (opts.extra.getD [])
  match opts.transform with
  | some f => f merged mode
  | none => merged

/-! ### Serializer: `JSON.stringify(json, null, 2)` at the character level -/

/-- Lowercase hexadecimal digit. -/
def hexDigitChar (n : Nat) : Char :=
  if n < 10 then Char.ofNat (48 + n) else Char.ofNat (87 + n)

/-- The escape of one character inside a JSON string literal, as
`JSON.stringify` emits it. -/
def escapeChar (c : Char) : List Char :=
  if c = '"' then ['\\', '"']
  else if c = '\\' then ['\\', '\\']
  else if c.toNat = 8 then ['\\', 'b']
  else if c.toNat = 12 then ['\\', 'f']
  else if c = '\n' then ['\\', 'n']
  else if c.toNat = 13 then ['\\', 'r']
  else if c.toNat = 9 then ['\\', 't']
  else if c.toNat < 32 then
    let n := c.toNat
    '\\' :: 'u' :: '0' :: '0' :: [hexDigitChar (n / 16), hexDigitChar (n % 16)]
  else [c]

def escStr : List Char → List Char
  | [] => []
  | c :: cs => escapeChar c ++ escStr cs

/-- Decimal digits of a natural number. -/
def natChars (n : Nat) : List Char :=
  if _h : n < 10 then [Nat.digitChar n]
  else natChars (n / 10) ++ [Nat.digitChar (n % 10)]
  decreasing_by exact Nat.div_lt_self (by omega) (by omega)

def intChars (i : Int) : List Char :=
  if i < 0 then '-' :: natChars i.natAbs else natChars i.natAbs

/-- Indentation: `n` spaces. -/
def sp (n : Nat) : List Char := List.replicate n ' '

mutual
/-- `JSON.stringify(v, null, 2)` restricted to the current indentation
level `ind`: the exact character stream Node emits. -/
def stringifyV (ind : Nat) : JSON → List Char
  | .str s => '"' :: (escStr s.data ++ ['"'])
  | .num i => intChars i
  | .bool b => if b then 't' :: ['r', 'u', 'e'] else 'f' :: ['a', 'l', 's', 'e']
  | .null => 'n' :: ['u', 'l', 'l']
  | .arr [] => ['[', ']']
  | .arr (x :: xs) =>
      '[' :: '\n' :: (sp (ind + 2) ++ stringifyV (ind + 2) x
        ++ stringifyItems (ind + 2) xs ++ '\n' :: (sp ind ++ [']']))
  | .obj [] => ['{', '}']
  | .obj ((k, v) :: kvs) =>
      '{' :: '\n' :: (sp (ind + 2) ++ memberChars (ind + 2) k v
        ++ stringifyMembers (ind + 2) kvs ++ '\n' :: (sp ind ++ ['}']))

/-- One `"key": value` member. -/
def memberChars (ind : Nat) (k : String) (v : JSON) : List Char :=
  '"' :: (escStr k.data ++ '"' :: ':' :: ' ' :: stringifyV ind v)

/-- The remaining array elements, each preceded by `,` newline indent. -/
def stringifyItems (ind : Nat) : List JSON → List Char
  | [] => []
  | x :: xs => ',' :: '\n' :: (sp ind ++ stringifyV ind x ++ stringifyItems ind xs)

/-- The remaining object members, each preceded by `,` newline indent. -/
def stringifyMembers (ind : Nat) : List (String × JSON) → List Char
  | [] => []
  | (k, v) :: kvs => ',' :: '\n' :: (sp ind ++ memberChars ind k v ++ stringifyMembers ind kvs)
end

/-- Serialized form of an assembled JavaScript object:
`JSON.stringify(doc, null, 2)` (undefined-valued fields dropped). -/
def stringifyDoc (d : Doc) : String := String.mk (stringifyV 0 (docToJSON d))

/-! ### A JSON reader, used to state the round-trip property -/

def isWsChar (c : Char) : Bool := c = ' ' || c = '\n' || c = '\t' || c.toNat = 13

def skipWs : List Char → List Char
  | c :: cs => if isWsChar c then skipWs cs else c :: cs
  | [] => []

/-- Value of a hexadecimal digit character. -/
def hexVal (c : Char) : Option Nat :=
  if c.isDigit then some (c.toNat - 48)
  else if 97 ≤ c.toNat ∧ c.toNat ≤ 102 then some (c.toNat - 87)
  else if 65 ≤ c.toNat ∧ c.toNat ≤ 70 then some (c.toNat - 55)
  else none

/-- Single-character escapes accepted after a backslash. -/
def escMap (e : Char) : Option Char :=
  if e = '"' then some '"'
  else if e = '\\' then some '\\'
  else if e = '/' then some '/'
  else if e = 'b' then some (Char.ofNat 8)
  else if e = 'f' then some (Char.ofNat 12)
  else if e = 'n' then some '\n'
  else if e = 'r' then some (Char.ofNat 13)
  else if e = 't' then some (Char.ofNat 9)
  else none

def parseHex4 (h1 h2 h3 h4 : Char) : Option Nat :=
  match hexVal h1, hexVal h2, hexVal h3, hexVal h4 with
  | some a, some b, some c, some d => some (((a * 16 + b) * 16 + c) * 16 + d)
  | _, _, _, _ => none

mutual
/-- Body of a JSON string literal (after the opening quote): the
decoded characters and the input following the closing quote. -/
def parseStrBody : List Char → Option (List Char × List Char)
  | [] => none
  | c :: rest =>
    if c = '"' then some ([], rest)
    else if c = '\\' then parseEscTail rest
    else (parseStrBody rest).map fun p => (c :: p.1, p.2)

/-- After a backslash. -/
def parseEscTail : List Char → Option (List Char × List Char)
  | [] => none
  | e :: rest2 =>
    if e = 'u' then parseUTail rest2
    else
      match escMap e with
      | some c2 => (parseStrBody rest2).map fun p => (c2 :: p.1, p.2)
      | none => none

/-- After a backslash-u: four hex digits. -/
def parseUTail : List Char → Option (List Char × List Char)
  | h1 :: h2 :: h3 :: h4 :: rest3 =>
    match parseHex4 h1 h2 h3 h4 with
    | some n => (parseStrBody rest3).map fun p => (Char.ofNat n :: p.1, p.2)
    | none => none
  | _ => none
end

/-- Maximal run of decimal digits, accumulating left to right. -/
def parseDigitsAux (acc : Nat) : List Char → Nat × List Char
  | c :: cs =>
      if c.isDigit then parseDigitsAux (acc * 10 + (c.toNat - 48)) cs
      else (acc, c :: cs)
  | [] => (acc, [])

def parseNullTail : List Char → Option (JSON × List Char)
  | 'u' :: 'l' :: 'l' :: r => some (.null, r)
  | _ => none

def parseTrueTail : List Char → Option (JSON × List Char)
  | 'r' :: 'u' :: 'e' :: r => some (.bool true, r)
  | _ => none

def parseFalseTail : List Char → Option (JSON × List Char)
  | 'a' :: 'l' :: 's' :: 'e' :: r => some (.bool false, r)
  | _ => none

def parseNegTail : List Char → Option (JSON × List Char)
  | [] => none
  | c2 :: rest =>
    if c2.isDigit then
      let p := parseDigitsAux 0 (c2 :: rest)
      some (.num (-(p.1 : Int)), p.2)
    else none

mutual
/-- Recursive-descent JSON value reader (fuelled; fuel decreases on
every nested call).  Expects its first character to be significant. -/
def parseVal : Nat → List Char → Option (JSON × List Char)
  | 0, _ => none
  | _ + 1, [] => none
  | F + 1, c :: rest =>
    if c = 'n' then parseNullTail rest
    else if c = 't' then parseTrueTail rest
    else if c = 'f' then parseFalseTail rest
    else if c = '"' then (parseStrBody rest).map fun p => (.str (String.mk p.1), p.2)
    else if c = '[' then parseArrTail F (skipWs rest)
    else if c = '{' then parseObjTail F (skipWs rest)
    else if c = '-' then parseNegTail rest
    else if c.isDigit then
      let p := parseDigitsAux 0 (c :: rest)
      some (.num (p.1 : Int), p.2)
    else none
termination_by F _ => (F, 0)

/-- After the opening bracket of an array (whitespace skipped). -/
def parseArrTail : Nat → List Char → Option (JSON × List Char)
  | _, [] => none
  | F, c2 :: r2 =>
    if c2 = ']' then some (.arr [], r2)
    else (parseItems F (c2 :: r2)).map fun p => (.arr p.1, p.2)
termination_by F _ => (F, 2)

/-- After the opening brace of an object (whitespace skipped). -/
def parseObjTail : Nat → List Char → Option (JSON × List Char)
  | _, [] => none
  | F, c2 :: r2 =>
    if c2 = '}' then some (.obj [], r2)
    else (parseMembers F (c2 :: r2)).map fun p => (.obj p.1, p.2)
termination_by F _ => (F, 2)

/-- One or more array elements followed by the closing bracket. -/
def parseItems : Nat → List Char → Option (List JSON × List Char)
  | 0, _ => none
  | F + 1, input =>
    match parseVal F input with
    | some (v, r) =>
      match skipWs r with
      | [] => none
      | c2 :: r2 =>
        if c2 = ',' then (parseItems F (skipWs r2)).map fun p => (v :: p.1, p.2)
        else if c2 = ']' then some ([v], r2)
        else none
    | none => none
termination_by F _ => (F, 1)

/-- One or more object members followed by the closing brace. -/
def parseMembers : Nat → List Char → Option (List (String × JSON) × List Char)
  | 0, _ => none
  | F + 1, input =>
    match input with
    | [] => none
    | c :: r =>
      if c = '"' then
        match parseStrBody r with
        | some (kcs, r1) =>
          match skipWs r1 with
          | [] => none
          | c1 :: r2 =>
            if c1 = ':' then
              match parseVal F (skipWs r2) with
              | some (v, r3) =>
                match skipWs r3 with
                | [] => none
                | c3 :: r4 =>
                  if c3 = ',' then
                    (parseMembers F (skipWs r4)).map fun p =>
                      ((String.mk kcs, v) :: p.1, p.2)
                  else if c3 = '}' then some ([(String.mk kcs, v)], r4)
                  else none
              | none => none
            else none
        | none => none
      else none
termination_by F _ => (F, 1)
end

/-- Parse a complete JSON text (leading and trailing whitespace
allowed, nothing else may follow). -/
def parseJSONStr (s : String) : Option JSON :=
  match parseVal (s.data.length + 1) (skipWs s.data) with
  | some (v, rest) => if skipWs rest = [] then some v else none
  | none => none

/-! ### SHA-1 content fingerprint (`hashETag`) -/

/-- Truncation to 32 bits. -/
def w32 (n : Nat) : Nat := n % 4294967296

/-- Left rotation of a 32-bit word (`x < 2^32`, `0 < k < 32`). -/
def rotl (k x : Nat) : Nat := (x * 2 ^ k) % 4294967296 + x / 2 ^ (32 - k)

/-- UTF-8 encoding of one character (byte values). -/
def utf8Char (c : Char) : List Nat :=
  let n := c.toNat
  if n < 128 then [n]
  else if n < 2048 then [192 + n / 64, 128 + n % 64]
  else if n < 65536 then [224 + n / 4096, 128 + (n / 64) % 64, 128 + n % 64]
  else [240 + n / 262144, 128 + (n / 4096) % 64, 128 + (n / 64) % 64, 128 + n % 64]

def utf8Bytes (s : String) : List Nat := s.data.foldr (fun c acc => utf8Char c ++ acc) []

/-- `k` bytes of `n`, big-endian. -/
def beBytes : Nat → Nat → List Nat
  | 0, _ => []
  | k + 1, n => beBytes k (n / 256) ++ [n % 256]

/-- SHA-1 message padding: `0x80`, zeros, 64-bit big-endian bit length. -/
def sha1Pad (msg : List Nat) : List Nat :=
  let len := msg.length
  msg ++ 128 :: (List.replicate ((119 - len % 64) % 64) 0 ++ beBytes 8 (len * 8))

/-- Big-endian 32-bit words from a byte stream. -/
def beWords : List Nat → List Nat
  | b0 :: b1 :: b2 :: b3 :: rest =>
      (((b0 * 256 + b1) * 256 + b2) * 256 + b3) :: beWords rest
  | _ => []

/-- 16-word blocks. -/
def chunk16 : List Nat → List (List Nat)
  | [] => []
  | w :: ws => ((w :: ws).take 16) :: chunk16 ((w :: ws).drop 16)
  termination_by l => l.length
  decreasing_by simp [List.length_drop]; omega

/-- Message-schedule extension, most recent word first. -/
def schedRev (acc : List Nat) : Nat → List Nat
  | 0 => acc
  | k + 1 =>
      let nw := rotl 1 (Nat.xor (Nat.xor (acc.getD 2 0) (acc.getD 7 0))
        (Nat.xor (acc.getD 13 0) (acc.getD 15 0)))
      schedRev (nw :: acc) k

def sha1F (i b c d : Nat) : Nat :=
  if i < 20 then Nat.lor (Nat.land b c) (Nat.land (4294967295 - b) d)
  else if i < 40 then Nat.xor (Nat.xor b c) d
  else if i < 60 then Nat.lor (Nat.lor (Nat.land b c) (Nat.land b d)) (Nat.land c d)
  else Nat.xor (Nat.xor b c) d

def sha1K (i : Nat) : Nat :=
  if i < 20 then 1518500249
  else if i < 40 then 1859775393
  else if i < 60 then 2400959708
  else 3395469782

abbrev Sha1State := Nat × Nat × Nat × Nat × Nat

def sha1Rounds (i : Nat) (ws : List Nat) (st : Sha1State) : Sha1State :=
  match ws with
  | [] => st
  | w :: rest =>
      let (a, b, c, d, e) := st
      let t := w32 (rotl 5 a + sha1F i b c d + e + sha1K i + w)
      sha1Rounds (i + 1) rest (t, a, rotl 30 b, c, d)

def sha1Block (st : Sha1State) (block : List Nat) : Sha1State :=
  let ws := (schedRev block.reverse 64).reverse
  let (a, b, c, d, e) := sha1Rounds 0 ws st
  let (h0, h1, h2, h3, h4) := st
  (w32 (h0 + a), w32 (h1 + b), w32 (h2 + c), w32 (h3 + d), w32 (h4 + e))

/-- `k`-digit lowercase hex rendering, big-endian. -/
def hexN : Nat → Nat → List Char
  | 0, _ => []
  | k + 1, n => hexN k (n / 16) ++ [hexDigitChar (n % 16)]

/-- SHA-1 hex digest of a string's UTF-8 bytes
(`crypto.createHash("sha1").update(s).digest("hex")`). -/
def sha1Hex (s : String) : String :=
  let blocks := chunk16 (beWords (sha1Pad (utf8Bytes s)))
  let st := blocks.foldl sha1Block
    (1732584193, 4023233417, 2562383102, 271733878, 3285377520)
  let (h0, h1, h2, h3, h4) := st
  String.mk (hexN 8 h0 ++ hexN 8 h1 ++ hexN 8 h2 ++ hexN 8 h3 ++ hexN 8 h4)

/-- `hashETag` from the source: weak-validator form of the SHA-1 digest. -/
def hashETag (s : String) : String := "W/\"" ++ sha1Hex s ++ "\""

/-! ### `serialize` and the dev-route handler -/

/-- The `purpose` property read off an icon-like JSON object, as the
source's `(i.purpose ?? "")` sees it after the unchecked cast. -/
def purposeOfJSON (v : JSON) : Option String :=
  match v with
  | .obj kvs =>
      match kvs.lookup "purpose" with
      | some (.str p) => some p
      | _ => none
  | _ => none

/-- `hasMaskableIcon(json.icons as ManifestIcon[])` evaluated on the
serialized document: an absent or undefined `icons` field behaves as
the empty list (the source's `icons ?? []`); entries not shaped like
icon objects would throw in JavaScript and are not modelled (the
builder never produces them). -/
def docIconsMaskable (d : Doc) : Bool :=
  match d.lookup "icons" with
  | some (some (.arr l)) =>
      l.any fun v => strIncludes ((purposeOfJSON v).getD "") "maskable"
  | _ => false

structure SerializeResult where
  payload : String
  warned : Bool

/-- `serialize` from the source: build the manifest, emit the maskable
warning when no icon's purpose contains "maskable" (a side effect that
does not alter output, surfaced here as the `warned` flag), and return
`JSON.stringify(json, null, 2) + "\n"`. -/
def serialize (opts : ManifestOptions) (mode : Mode) (env : BuildEnv) : SerializeResult :=
  let json := buildManifest opts mode env
  { payload := String.mk (stringifyV 0 (docToJSON json) ++ [ '\n' ]),
    warned := !(docIconsMaskable json) }

structure DevResponse where
  status : Nat
  headers : List (String × String)
  body : String

def manifestHeaders (etag : String) : List (String × String) :=
  [ ("Content-Type", "application/manifest+json; charset=utf-8"),
    ("Cache-Control", "no-store, no-cache, must-revalidate, max-age=0"),
    ("Pragma", "no-cache"),
    ("Expires", "0"),
    ("ETag", etag) ]

/-- The middleware handler of `configureServer`: rebuild in development
mode, set the five headers, answer 304 with empty body when the
request's `If-None-Match` equals the fresh ETag, else 200 with the
payload. -/
def handleManifestRequest (opts : ManifestOptions) (env : BuildEnv)
    (ifNoneMatch : Option String) : DevResponse :=
  let payload := (serialize opts .development env).payload
  let etag := hashETag payload
  if ifNoneMatch = some etag then
    { status := 304, headers := manifestHeaders etag, body := "" }
  else
    { status := 200, headers := manifestHeaders etag, body := payload }

/-! ### Disk mirror (`writeFileIfChanged`) over an explicit filesystem -/

/-- Filesystem state: file contents, created directories, and a count
of write operations performed.  A read returning `none` models the
source's caught pre-read failure (missing file); the model is total,
so no exception escapes the pre-read. -/
structure FS where
  files : List (String × String) := []
  dirs : List String := []
  writeCount : Nat := 0

def FS.readFile (fs : FS) (p : String) : Option String := fs.files.lookup p

def FS.mkdirp (fs : FS) (d : String) : FS := { fs with dirs := d :: fs.dirs }

def FS.writeFile (fs : FS) (p c : String) : FS :=
  { fs with files := (p, c) :: fs.files, writeCount := fs.writeCount + 1 }

/-- `path.dirname`, for slash-separated paths without trailing slash. -/
def dirname (p : String) : String :=
  match p.data.reverse.dropWhile (· ≠ '/') with
  | [] => "."
  | ['/'] => "/"
  | '/' :: rest => String.mk rest.reverse
  | _ => "."

/-- `writeFileIfChanged` from the source: skip the write when the
existing content equals the payload; on a failed pre-read or differing
content, create the parent directory and write.  Returns the new
filesystem and whether a write occurred. -/
def writeFileIfChanged (fs : FS) (filePath payload : String) : FS × Bool :=
  match fs.readFile filePath with
  | some existing =>
      if existing = payload then (fs, false)
      else ((fs.mkdirp (dirname filePath)).writeFile filePath payload, true)
  | none => ((fs.mkdirp (dirname filePath)).writeFile filePath payload, true)

/-! ### Auxiliary definitions used by the statements and proofs -/

/-- The (source, size, purpose) triple of an icon. -/
def iconTriple (i : ManifestIcon) : String × String × Option Purpose :=
  (i.src, i.sizes, i.purpose)

/-- The string the source's dedup key assigns to a triple. -/
def purposeStr : Option Purpose → String
  | some p => p.toStr
  | none => ""

def tripleKey (t : String × String × Option Purpose) : String :=
  t.1 ++ "|" ++ t.2.1 ++ "|" ++ purposeStr t.2.2

/-- First-seen filter on whole (source, size, purpose) triples: the
specification-side dedup the invariant describes, keeping the first
icon of each distinct triple in input order. -/
def dedupByTripleFirstSeen :
    List ManifestIcon → List (String × String × Option Purpose) → List ManifestIcon
  | [], _ => []
  | i :: rest, seen =>
      if iconTriple i ∈ seen then dedupByTripleFirstSeen rest seen
      else i :: dedupByTripleFirstSeen rest (iconTriple i :: seen)

/-- An icon whose normalized source and whose size string avoid the
`|` separator of the source's dedup key. -/
def PipeFreeIcon (i : ManifestIcon) : Prop :=
  '|' ∉ (ensureLeadingSlash i.src).data ∧ '|' ∉ i.sizes.data

instance PipeFreeIcon.decidable (i : ManifestIcon) : Decidable (PipeFreeIcon i) :=
  inferInstanceAs (Decidable ('|' ∉ (ensureLeadingSlash i.src).data ∧ '|' ∉ i.sizes.data))

/-- `d.all`-style check that every binding of key `k` in `d` is
`undefined`; implies `k` is absent from the serialized JSON. -/
def allNoneAt (d : Doc) (k : String) : Bool :=
  d.all fun p => (p.1 != k) || p.2.isNone

/-- JavaScript property assignment `obj[k] = v`: overwrite in place
when the key exists, else append. -/
def jsSet (d : Doc) (k : String) (v : Option JSON) : Doc :=
  if d.any (fun kv => kv.1 == k) then
    d.map fun kv => if kv.1 == k then (kv.1, v) else kv
  else d ++ [(k, v)]

/-- A concrete transform that sets `name` to `"X"` only in development
mode (the shape used by the specification's testable property). -/
def devNameX : Doc → Mode → Doc := fun d m =>
  match m with
  | .development => jsSet d "name" (some (.str "X"))
  | .production => d

/-- The input left after a serialized number must not continue with a
digit, or the reader would swallow it into the number. -/
def HeadNotDigit : List Char → Prop
  | [] => True
  | c :: _ => c.isDigit = false

mutual
/-- Fuel sufficient for `parseVal` to read back `stringifyV`'s output. -/
def fuelV : JSON → Nat
  | .arr l => 1 + fuelItems l
  | .obj l => 1 + fuelMembers l
  | .str _ => 1
  | .num _ => 1
  | .bool _ => 1
  | .null => 1

def fuelItems : List JSON → Nat
  | [] => 0
  | x :: xs => 1 + fuelV x + fuelItems xs

def fuelMembers : List (String × JSON) → Nat
  | [] => 0
  | (_, v) :: kvs => 1 + fuelV v + fuelMembers kvs
end

/-! ### Helper lemmas -/

theorem jsMerge_nil (a : Doc) : jsMerge a [] = a := by
  simp [jsMerge]

/-- With no `extra` entries and no `transform`, the built manifest is
the base object plus build meta. -/
theorem buildManifest_plain (opts : ManifestOptions) (mode : Mode) (env : BuildEnv)
    (ht : opts.transform = none) (he : opts.extra.getD [] = []) :
    buildManifest opts mode env = withMeta opts env (buildBase opts) := by
  simp [buildManifest, ht, he, jsMerge_nil]

theorem lookup_definedEntries_none (d : Doc) (k : String)
    (h : ∀ p ∈ d, p.1 = k → p.2 = none) : (definedEntries d).lookup k = none := by
  induction d with
  | nil => rfl
  | cons p rest ih =>
    obtain ⟨k', v⟩ := p
    have hrest := ih fun q hq => h q (List.mem_cons_of_mem _ hq)
    cases v with
    | none =>
      have hd : definedEntries ((k', none) :: rest) = definedEntries rest := rfl
      rw [hd]; exact hrest
    | some u =>
      have hk : (k == k') = false := by
        apply beq_eq_false_iff_ne.mpr
        intro he
        have h2 := h (k', some u) (List.mem_cons_self _ _) he.symm
        simp at h2
      have hd : definedEntries ((k', some u) :: rest) = (k', u) :: definedEntries rest := rfl
      rw [hd]
      rw [show List.lookup k ((k', u) :: definedEntries rest)
            = List.lookup k (definedEntries rest) from by simp [List.lookup, hk]]
      exact hrest

theorem lookup_definedEntries_of_allNoneAt (d : Doc) (k : String)
    (h : allNoneAt d k = true) : (definedEntries d).lookup k = none := by
  apply lookup_definedEntries_none
  intro p hp hk
  have h2 := List.all_eq_true.mp h p hp
  simp only [Bool.or_eq_true, bne_iff_ne, ne_eq, Option.isNone_iff_eq_none] at h2
  rcases h2 with hne | hn
  · exact absurd hk hne
  · exact hn

theorem startsWithSlash_slash_append (s : String) : startsWithSlash ("/" ++ s) = true := by
  have h : ("/" ++ s).data = '/' :: s.data := by rw [String.data_append]; rfl
  simp [startsWithSlash, h]

theorem ensureLeadingSlash_startsWith (s : String) :
    startsWithSlash (ensureLeadingSlash s) = true := by
  unfold ensureLeadingSlash
  by_cases h : startsWithSlash s
  · rwa [if_pos h]
  · rw [if_neg h]; exact startsWithSlash_slash_append s

theorem ensureLeadingSlash_idem (s : String) :
    ensureLeadingSlash (ensureLeadingSlash s) = ensureLeadingSlash s := by
  unfold ensureLeadingSlash
  by_cases h : startsWithSlash s
  · simp [h]
  · simp [h, startsWithSlash_slash_append]

theorem mem_dedupIcons (l : List ManifestIcon) (seen : List String) (i : ManifestIcon)
    (h : i ∈ dedupIcons l seen) : i ∈ l := by
  induction l generalizing seen with
  | nil => simp [dedupIcons] at h
  | cons j rest ih =>
    rw [dedupIcons] at h
    by_cases hk : iconKey j ∈ seen
    · rw [if_pos hk] at h; exact List.mem_cons_of_mem _ (ih _ h)
    · rw [if_neg hk] at h
      rcases List.mem_cons.mp h with rfl | h2
      · exact List.mem_cons_self _ _
      · exact List.mem_cons_of_mem _ (ih _ h2)

/-! ### Claims -/

/-- C3: `ensureLeadingSlash` prepends exactly one slash to a value not
starting with `/`, leaves slash-prefixed values unchanged, and is
idempotent; the builder applies it to `start_url`, `scope`, `id`
(each defaulting to `"/"`), and every icon source in a normalized icon
list starts with `/`. -/
theorem claim_C3 (s : String) (opts : ManifestOptions) (mode : Mode) (env : BuildEnv)
    (d : Doc) (hd : d = buildManifest opts mode env)
    (ht : opts.transform = none) (he : opts.extra.getD [] = []) :
    (startsWithSlash s = false → ensureLeadingSlash s = "/" ++ s) ∧
    (startsWithSlash s = true → ensureLeadingSlash s = s) ∧
    ensureLeadingSlash (ensureLeadingSlash s) = ensureLeadingSlash s ∧
    d.lookup "start_url" = some (some (.str (ensureLeadingSlash (opts.start_url.getD "/")))) ∧
    d.lookup "scope" = some (some (.str (ensureLeadingSlash (opts.scope.getD "/")))) ∧
    d.lookup "id" = some (some (.str (ensureLeadingSlash (opts.id.getD "/")))) ∧
    (opts.start_url = none → d.lookup "start_url" = some (some (.str "/"))) ∧
    (opts.scope = none → d.lookup "scope" = some (some (.str "/"))) ∧
    (opts.id = none → d.lookup "id" = some (some (.str "/"))) ∧
    (∀ icons i, i ∈ normalizeIcons icons → startsWithSlash i.src = true) := by
  subst hd
  rw [buildManifest_plain opts mode env ht he]
  refine ⟨?_, ?_, ?_, ?_, ?_, ?_, ?_, ?_, ?_, ?_⟩
  · intro h; simp [ensureLeadingSlash, h]
  · intro h; simp [ensureLeadingSlash, h]
  · exact ensureLeadingSlash_idem s
  · by_cases hib : opts.includeBuildMeta = some false <;>
      simp [withMeta, hib, buildBase, List.lookup]
  · by_cases hib : opts.includeBuildMeta = some false <;>
      simp [withMeta, hib, buildBase, List.lookup]
  · by_cases hib : opts.includeBuildMeta = some false <;>
      simp [withMeta, hib, buildBase, List.lookup]
  · intro h
    by_cases hib : opts.includeBuildMeta = some false <;>
      simp [withMeta, hib, buildBase, List.lookup, h] <;> decide
  · intro h
    by_cases hib : opts.includeBuildMeta = some false <;>
      simp [withMeta, hib, buildBase, List.lookup, h] <;> decide
  · intro h
    by_cases hib : opts.includeBuildMeta = some false <;>
      simp [withMeta, hib, buildBase, List.lookup, h] <;> decide
  · intro icons i hi
    have hmem := mem_dedupIcons _ _ _ hi
    obtain ⟨j, _, rfl⟩ := List.mem_map.mp hmem
    exact ensureLeadingSlash_startsWith j.src

/-- C3 witness at a concrete slash-less value and the default options. -/
theorem claim_C3_witness :
    startsWithSlash "about" = false ∧ ensureLeadingSlash "about" = "/" ++ "about" :=
  ⟨by decide, (claim_C3 "about" {} .production {} _ rfl rfl rfl).1 (by decide)⟩

/-- C4: when no icons are configured, the manifest's icon list is the
built-in default pair (192 and 512, both purpose "any maskable", both
under /icons/, in that order). -/
theorem claim_C4 (opts : ManifestOptions) (mode : Mode) (env : BuildEnv)
    (d : Doc) (hd : d = buildManifest opts mode env)
    (ht : opts.transform = none) (he : opts.extra.getD [] = [])
    (hi : opts.icons = none) :
    d.lookup "icons" = some (some (.arr
      [ .obj [("src", .str "/icons/icon-192x192.png"), ("sizes", .str "192x192"),
              ("type", .str "image/png"), ("purpose", .str "any maskable")],
        .obj [("src", .str "/icons/icon-512x512.png"), ("sizes", .str "512x512"),
              ("type", .str "image/png"), ("purpose", .str "any maskable")] ])) ∧
    normalizeIcons none = defaultIcons := by
  constructor
  · subst hd
    rw [buildManifest_plain opts mode env ht he]
    by_cases hib : opts.includeBuildMeta = some false <;>
      simp [withMeta, hib, buildBase, List.lookup, hi] <;> rfl
  · decide

/-- C4 witness at the default options. -/
theorem claim_C4_witness : normalizeIcons none = defaultIcons :=
  (claim_C4 {} .production {} _ rfl rfl rfl rfl).2

/-- C10: an explicitly empty icon list is kept empty (defaults are
substituted only when the field is absent), and the non-fatal
no-maskable-icon warning fires. -/
theorem claim_C10 (opts : ManifestOptions) (mode : Mode) (env : BuildEnv)
    (d : Doc) (hd : d = buildManifest opts mode env)
    (ht : opts.transform = none) (he : opts.extra.getD [] = [])
    (hi : opts.icons = some []) :
    d.lookup "icons" = some (some (.arr [])) ∧
    (serialize opts mode env).warned = true ∧
    normalizeIcons (some []) = [] := by
  have hlk : (buildManifest opts mode env).lookup "icons" = some (some (.arr [])) := by
    rw [buildManifest_plain opts mode env ht he]
    by_cases hib : opts.includeBuildMeta = some false <;>
      simp [withMeta, hib, buildBase, List.lookup, hi, normalizeIcons, dedupIcons]
  refine ⟨hd ▸ hlk, ?_, rfl⟩
  simp [serialize, docIconsMaskable, hlk]

/-- C10 witness at options carrying an explicitly empty icon list. -/
theorem claim_C10_witness :
    (serialize { icons := some [] } .production {}).warned = true :=
  (claim_C10 { icons := some [] } .production {} _ rfl rfl rfl rfl).2.1

theorem lookup_append_right_of_absent (d : Doc) (k : String) (tail : Doc)
    (h : ∀ p ∈ d, (p.1 == k) = false) :
    List.lookup k (d ++ tail) = List.lookup k tail := by
  induction d with
  | nil => simp
  | cons p rest ih =>
    obtain ⟨k', w⟩ := p
    have hb := h (k', w) (List.mem_cons_self _ _)
    have hkb : (k == k') = false := by
      rw [beq_eq_false_iff_ne] at hb ⊢
      exact Ne.symm hb
    rw [List.cons_append,
      show List.lookup k ((k', w) :: (rest ++ tail)) = List.lookup k (rest ++ tail) from by
        simp [List.lookup, hkb]]
    exact ih fun q hq => h q (List.mem_cons_of_mem _ hq)

theorem lookup_map_set (d : Doc) (k : String) (v : Option JSON)
    (hk : d.any (fun kv => kv.1 == k) = true) :
    List.lookup k (d.map fun kv => if kv.1 == k then (kv.1, v) else kv) = some v := by
  induction d with
  | nil => simp at hk
  | cons p rest ih =>
    obtain ⟨k', w⟩ := p
    rw [List.map_cons]
    cases hb : k' == k with
    | true =>
      have hek : k' = k := by simpa using hb
      subst hek
      simp [List.lookup]
    | false =>
      have hk2 : rest.any (fun kv => kv.1 == k) = true := by
        simpa [List.any_cons, hb] using hk
      have hkb : (k == k') = false := by
        rw [beq_eq_false_iff_ne]
        intro hcon
        rw [beq_eq_false_iff_ne] at hb
        exact hb hcon.symm
      simpa [List.lookup, hkb] using ih hk2

/-- JavaScript assignment `obj[k] = v` makes a later read of `k`
return `v`, whether or not the key already existed. -/
theorem lookup_jsSet (d : Doc) (k : String) (v : Option JSON) :
    (jsSet d k v).lookup k = some v := by
  unfold jsSet
  by_cases hk : d.any (fun kv => kv.1 == k) = true
  · rw [if_pos hk]
    exact lookup_map_set d k v hk
  · rw [if_neg hk]
    have hall : ∀ p ∈ d, (p.1 == k) = false := by
      intro p hp
      by_contra hcon
      exact hk (List.any_eq_true.mpr ⟨p, hp, by simpa using hcon⟩)
    rw [lookup_append_right_of_absent d k _ hall]
    simp [List.lookup]

/-- C6: the final document is exactly the configured transform's
return value on the assembled object and the mode; a transform that
sets `name` to `"X"` only in development yields `"X"` in development
and the untransformed default or configured name in production. -/
theorem claim_C6 (opts : ManifestOptions) (mode : Mode) (env : BuildEnv)
    (f : Doc → Mode → Doc) (he : opts.extra.getD [] = []) :
    (opts.transform = some f →
      buildManifest opts mode env
        = f (jsMerge (withMeta opts env (buildBase opts)) (opts.extra.getD [])) mode) ∧
    (buildManifest { opts with transform := some devNameX } .development env).lookup "name"
      = some (some (.str "X")) ∧
    (buildManifest { opts with transform := some devNameX } .production env).lookup "name"
      = some (some (.str (opts.name.getD "My App"))) := by
  refine ⟨?_, ?_, ?_⟩
  · intro hf
    simp [buildManifest, hf]
  · simp only [buildManifest, devNameX]
    exact lookup_jsSet _ _ _
  · simp only [buildManifest, devNameX]
    have heX : ({ opts with transform := some devNameX } : ManifestOptions).extra.getD [] = [] := he
    rw [show ({ opts with transform := some devNameX } : ManifestOptions).extra.getD []
          = opts.extra.getD [] from rfl, he, jsMerge_nil]
    by_cases hib : opts.includeBuildMeta = some false <;>
      simp [withMeta, hib, buildBase, List.lookup]

/-- C6 witness: default options with the development-only transform. -/
theorem claim_C6_witness :
    (buildManifest { transform := some devNameX } .development {}).lookup "name"
      = some (some (.str "X")) ∧
    (buildManifest { transform := some devNameX } .production {}).lookup "name"
      = some (some (.str "My App")) :=
  ⟨(claim_C6 {} .development {} devNameX rfl).2.1,
   (claim_C6 {} .production {} devNameX rfl).2.2⟩

/-- C7: every dev-route request rebuilds in development mode; the
response carries the manifest content type, the no-cache directives,
and a weak SHA-1 ETag; it is 304 with empty body exactly when
`If-None-Match` equals the fresh ETag, else 200 with the payload. -/
theorem claim_C7 (opts : ManifestOptions) (env : BuildEnv) (inm : Option String)
    (payload etag : String)
    (hp : payload = (serialize opts .development env).payload)
    (he : etag = hashETag payload)
    (resp : DevResponse) (hr : resp = handleManifestRequest opts env inm) :
    resp.headers =
      [ ("Content-Type", "application/manifest+json; charset=utf-8"),
        ("Cache-Control", "no-store, no-cache, must-revalidate, max-age=0"),
        ("Pragma", "no-cache"),
        ("Expires", "0"),
        ("ETag", "W/\"" ++ sha1Hex payload ++ "\"") ] ∧
    (inm = some etag → resp.status = 304 ∧ resp.body = "") ∧
    (inm ≠ some etag → resp.status = 200 ∧ resp.body = payload) := by
  subst hr hp he
  have hpe : handleManifestRequest opts env inm =
      (if inm = some (hashETag (serialize opts .development env).payload) then
        { status := 304,
          headers := manifestHeaders (hashETag (serialize opts .development env).payload),
          body := "" }
      else
        { status := 200,
          headers := manifestHeaders (hashETag (serialize opts .development env).payload),
          body := (serialize opts .development env).payload }) := rfl
  rw [hpe]
  by_cases hc : inm = some (hashETag (serialize opts .development env).payload)
  · rw [if_pos hc]
    exact ⟨by simp [manifestHeaders, hashETag], fun _ => ⟨rfl, rfl⟩, fun h => absurd hc h⟩
  · rw [if_neg hc]
    exact ⟨by simp [manifestHeaders, hashETag], fun h => absurd h hc, fun _ => ⟨rfl, rfl⟩⟩

/-- C7 witness: a request without `If-None-Match` gets a 200 with the
full freshly serialized payload. -/
theorem claim_C7_witness :
    (handleManifestRequest {} {} none).status = 200 ∧
    (handleManifestRequest {} {} none).body = (serialize {} .development {}).payload :=
  (claim_C7 {} {} none _ _ rfl rfl _ rfl).2.2 (by simp)

/-- C8: the disk mirror writes exactly when the pre-read does not
return the payload (a failed pre-read counts as differing), reports a
write through its boolean result, creates the parent directory on
write, leaves the filesystem untouched otherwise, and a second call
with identical content does not write again. -/
theorem claim_C8 (fs : FS) (p s : String) (r : FS × Bool)
    (hr : r = writeFileIfChanged fs p s) :
    (r.2 = true ↔ fs.readFile p ≠ some s) ∧
    r.1.writeCount = fs.writeCount + (if r.2 then 1 else 0) ∧
    (r.2 = true → dirname p ∈ r.1.dirs) ∧
    (r.2 = false → r.1 = fs) ∧
    writeFileIfChanged r.1 p s = (r.1, false) := by
  subst hr
  cases hre : List.lookup p fs.files with
  | some existing =>
    by_cases heq : existing = s
    · subst heq
      simp [writeFileIfChanged, FS.readFile, hre]
    · simp [writeFileIfChanged, FS.readFile, hre, heq, FS.writeFile, FS.mkdirp, List.lookup]
  | none =>
    simp [writeFileIfChanged, FS.readFile, hre, FS.writeFile, FS.mkdirp, List.lookup]

/-- C1: the default-assembly contract: configured-or-default values
for `lang`, `dir`, `name`, `short_name`, `display`, `theme_color`, and
`background_color` (which falls back to the resolved theme color), and
absence from the serialized JSON of the seven fields that have no
default, whenever the configuration does not supply them.  The
configuration is assumed not to override these fields through `extra`
or a `transform`. -/
theorem claim_C1 (opts : ManifestOptions) (mode : Mode) (env : BuildEnv)
    (d : Doc) (hd : d = buildManifest opts mode env)
    (ht : opts.transform = none) (he : opts.extra.getD [] = []) :
    d.lookup "lang" = some (some (.str (opts.lang.getD "en"))) ∧
    d.lookup "dir" = some (some (.str (opts.dir.getD "ltr"))) ∧
    d.lookup "name" = some (some (.str (opts.name.getD "My App"))) ∧
    d.lookup "short_name" = some (some (.str (opts.short_name.getD "App"))) ∧
    d.lookup "display" = some (some (.str (opts.display.getD "standalone"))) ∧
    d.lookup "theme_color" = some (some (.str (opts.theme_color.getD "#0a131b"))) ∧
    d.lookup "background_color"
      = some (some (.str (opts.background_color.getD (opts.theme_color.getD "#0a131b")))) ∧
    (opts.description = none → (definedEntries d).lookup "description" = none) ∧
    (opts.orientation = none → (definedEntries d).lookup "orientation" = none) ∧
    (opts.categories = none → (definedEntries d).lookup "categories" = none) ∧
    (opts.prefer_related_applications = none →
      (definedEntries d).lookup "prefer_related_applications" = none) ∧
    (opts.related_applications = none →
      (definedEntries d).lookup "related_applications" = none) ∧
    (opts.protocol_handlers = none → (definedEntries d).lookup "protocol_handlers" = none) ∧
    (opts.screenshots = none → (definedEntries d).lookup "screenshots" = none) := by
  subst hd
  rw [buildManifest_plain opts mode env ht he]
  by_cases hib : opts.includeBuildMeta = some false <;>
  refine ⟨?_, ?_, ?_, ?_, ?_, ?_, ?_, ?_, ?_, ?_, ?_, ?_, ?_, ?_⟩ <;>
  first
    | (intro h
       exact lookup_definedEntries_of_allNoneAt _ _
         (by simp [withMeta, hib, buildBase, allNoneAt, h]))
    | simp [withMeta, hib, buildBase, List.lookup]

/-- C1 witness at the default options (everything falls back to its
default and the seven optional fields are absent). -/
theorem claim_C1_witness :
    (buildManifest {} .production {}).lookup "name" = some (some (.str "My App")) ∧
    (definedEntries (buildManifest {} .production {})).lookup "description" = none :=
  ⟨(claim_C1 {} .production {} _ rfl rfl rfl).2.2.1,
   (claim_C1 {} .production {} _ rfl rfl rfl).2.2.2.2.2.2.2.1 rfl⟩

/-- C5: build metadata.  When `includeBuildMeta` is not explicitly
`false`, `pkgVersion` carries the package-metadata version (absent on
lookup failure), `version` is the first successful git lookup with
`pkgVersion` as fallback (absent when both fail), git precedence over
`pkgVersion`, and `buildTime` is the current timestamp; when it is
explicitly `false` (and `extra`/`transform` do not reintroduce the
keys), none of the three keys appears. -/
theorem claim_C5 (opts : ManifestOptions) (mode : Mode) (env : BuildEnv)
    (d : Doc) (hd : d = buildManifest opts mode env)
    (ht : opts.transform = none) (he : opts.extra.getD [] = []) :
    (opts.includeBuildMeta ≠ some false →
      d.lookup "pkgVersion" = some (env.pkgVersion.map .str) ∧
      d.lookup "version"
        = some (((gitShort env).orElse fun _ => env.pkgVersion).map .str) ∧
      d.lookup "buildTime" = some (some (.str env.now)) ∧
      (∀ v, gitShort env = some v → d.lookup "version" = some (some (.str v))) ∧
      (gitShort env = none → d.lookup "version" = some (env.pkgVersion.map .str)) ∧
      (env.pkgVersion = none → (definedEntries d).lookup "pkgVersion" = none) ∧
      (gitShort env = none → env.pkgVersion = none →
        (definedEntries d).lookup "version" = none)) ∧
    (opts.includeBuildMeta = some false →
      d.lookup "pkgVersion" = none ∧
      d.lookup "version" = none ∧
      d.lookup "buildTime" = none) := by
  subst hd
  rw [buildManifest_plain opts mode env ht he]
  constructor
  · intro hib
    refine ⟨?_, ?_, ?_, ?_, ?_, ?_, ?_⟩
    · simp [withMeta, hib, buildBase, List.lookup]
    · simp [withMeta, hib, buildBase, List.lookup]
    · simp [withMeta, hib, buildBase, List.lookup]
    · intro v hv
      simp [withMeta, hib, buildBase, List.lookup, hv, Option.orElse]
    · intro hg
      simp [withMeta, hib, buildBase, List.lookup, hg, Option.orElse]
    · intro h
      exact lookup_definedEntries_of_allNoneAt _ _
        (by simp [withMeta, hib, buildBase, allNoneAt, h])
    · intro hg h
      exact lookup_definedEntries_of_allNoneAt _ _
        (by simp [withMeta, hib, buildBase, allNoneAt, h, hg, Option.orElse])
  · intro hib
    refine ⟨?_, ?_, ?_⟩ <;> simp [withMeta, hib, buildBase, List.lookup]

/-- C5 witness: with metadata on (default) and a successful exact-tag
lookup, `version` carries the tag even though a package version is
also available; with `includeBuildMeta: false`, the keys are gone. -/
theorem claim_C5_witness :
    (buildManifest {} .production
        { pkgVersion := some "1.2.3", gitExact := some "v9", now := "t" }).lookup "version"
      = some (some (.str "v9")) ∧
    (buildManifest { includeBuildMeta := some false } .production
        { pkgVersion := some "1.2.3", gitExact := some "v9", now := "t" }).lookup "buildTime"
      = none :=
  ⟨((claim_C5 {} .production
      { pkgVersion := some "1.2.3", gitExact := some "v9", now := "t" } _ rfl rfl rfl).1
      (by simp)).2.2.2.1 "v9" (by decide),
   ((claim_C5 { includeBuildMeta := some false } .production
      { pkgVersion := some "1.2.3", gitExact := some "v9", now := "t" } _ rfl rfl rfl).2
      rfl).2.2⟩

/-- C8 witness: on an empty filesystem the first write happens and the
immediate second call with the same content reports no change. -/
theorem claim_C8_witness :
    (writeFileIfChanged {} "/out/manifest.json" "content").2 = true ∧
    writeFileIfChanged (writeFileIfChanged {} "/out/manifest.json" "content").1
        "/out/manifest.json" "content"
      = ((writeFileIfChanged {} "/out/manifest.json" "content").1, false) :=
  ⟨(claim_C8 {} "/out/manifest.json" "content" _ rfl).1.mpr (by decide),
   (claim_C8 {} "/out/manifest.json" "content" _ rfl).2.2.2.2⟩

/-! ### C2: icon deduplication -/

theorem iconKey_eq (i : ManifestIcon) : iconKey i = tripleKey (iconTriple i) := rfl

theorem pipe_split_inj : ∀ (xs zs ys ws : List Char),
    '|' ∉ xs → '|' ∉ zs → xs ++ '|' :: ys = zs ++ '|' :: ws → xs = zs ∧ ys = ws := by
  intro xs
  induction xs with
  | nil =>
    intro zs ys ws _ hz h
    cases zs with
    | nil => simpa using h
    | cons z zt =>
      simp only [List.nil_append, List.cons_append, List.cons.injEq] at h
      exact absurd (by rw [← h.1]; exact List.mem_cons_self _ _) hz
  | cons x xt ih =>
    intro zs ys ws hx hz h
    cases zs with
    | nil =>
      simp only [List.nil_append, List.cons_append, List.cons.injEq] at h
      exact absurd (by rw [h.1]; exact List.mem_cons_self _ _) hx
    | cons z zt =>
      simp only [List.cons_append, List.cons.injEq] at h
      obtain ⟨hxz, h2⟩ := h
      have hx' : '|' ∉ xt := fun hm => hx (List.mem_cons_of_mem _ hm)
      have hz' : '|' ∉ zt := fun hm => hz (List.mem_cons_of_mem _ hm)
      obtain ⟨h3, h4⟩ := ih zt ys ws hx' hz' h2
      exact ⟨by rw [hxz, h3], h4⟩

theorem purposeStr_inj (x y : Option Purpose) (h : purposeStr x = purposeStr y) : x = y := by
  cases x with
  | none =>
    cases y with
    | none => rfl
    | some q => cases q <;> simp [purposeStr, Purpose.toStr] at h
  | some p =>
    cases y with
    | none => cases p <;> simp [purposeStr, Purpose.toStr] at h
    | some q => cases p <;> cases q <;> simp_all [purposeStr, Purpose.toStr]

theorem tripleKey_data (t : String × String × Option Purpose) :
    (tripleKey t).data
      = t.1.data ++ '|' :: (t.2.1.data ++ '|' :: (purposeStr t.2.2).data) := by
  have hp : "|".data = ['|'] := rfl
  simp [tripleKey, String.data_append, hp]

theorem tripleKey_inj (t1 t2 : String × String × Option Purpose)
    (h1 : '|' ∉ t1.1.data ∧ '|' ∉ t1.2.1.data)
    (h2 : '|' ∉ t2.1.data ∧ '|' ∉ t2.2.1.data)
    (h : tripleKey t1 = tripleKey t2) : t1 = t2 := by
  obtain ⟨a1, b1, c1⟩ := t1
  obtain ⟨a2, b2, c2⟩ := t2
  have hd := congrArg String.data h
  rw [tripleKey_data, tripleKey_data] at hd
  obtain ⟨e1, e2⟩ := pipe_split_inj _ _ _ _ h1.1 h2.1 hd
  obtain ⟨e3, e4⟩ := pipe_split_inj _ _ _ _ h1.2 h2.2 e2
  have ha : a1 = a2 := String.ext e1
  have hb : b1 = b2 := String.ext e3
  have e5 : c1 = c2 := purposeStr_inj _ _ (String.ext e4)
  rw [ha, hb, e5]

/-- The source's key-based dedup agrees with triple-based first-seen
dedup as long as no source or size string contains the separator. -/
theorem dedupIcons_eq_dedupByTriple :
    ∀ (l : List ManifestIcon) (seenT : List (String × String × Option Purpose)),
    (∀ i ∈ l, '|' ∉ i.src.data ∧ '|' ∉ i.sizes.data) →
    (∀ t ∈ seenT, '|' ∉ t.1.data ∧ '|' ∉ t.2.1.data) →
    dedupIcons l (seenT.map tripleKey) = dedupByTripleFirstSeen l seenT := by
  intro l
  induction l with
  | nil => intro seenT _ _; rfl
  | cons i rest ih =>
    intro seenT hl hs
    have hi := hl i (List.mem_cons_self _ _)
    have hrest := fun j hj => hl j (List.mem_cons_of_mem i hj)
    have hmem : (iconKey i ∈ seenT.map tripleKey) ↔ (iconTriple i ∈ seenT) := by
      constructor
      · intro hm
        obtain ⟨t, ht, he⟩ := List.mem_map.mp hm
        have heq : t = iconTriple i :=
          tripleKey_inj t (iconTriple i) (hs t ht) ⟨hi.1, hi.2⟩
            (he.trans (iconKey_eq i))
        exact heq ▸ ht
      · intro hm
        exact List.mem_map.mpr ⟨iconTriple i, hm, (iconKey_eq i).symm⟩
    rw [dedupIcons, dedupByTripleFirstSeen]
    by_cases hin : iconTriple i ∈ seenT
    · rw [if_pos (hmem.mpr hin), if_pos hin]
      exact ih seenT hrest hs
    · rw [if_neg (fun hm => hin (hmem.mp hm)), if_neg hin]
      congr 1
      have hcons : iconKey i :: seenT.map tripleKey
          = (iconTriple i :: seenT).map tripleKey := by
        simp [iconKey_eq]
      rw [hcons]
      refine ih (iconTriple i :: seenT) hrest ?_
      intro t ht
      rcases List.mem_cons.mp ht with rfl | ht2
      · exact ⟨hi.1, hi.2⟩
      · exact hs t ht2

theorem dedupByTriple_sublist (l : List ManifestIcon) :
    ∀ seen, List.Sublist (dedupByTripleFirstSeen l seen) l := by
  induction l with
  | nil => intro seen; rfl
  | cons i rest ih =>
    intro seen
    rw [dedupByTripleFirstSeen]
    by_cases hin : iconTriple i ∈ seen
    · rw [if_pos hin]; exact (ih seen).cons i
    · rw [if_neg hin]; exact (ih _).cons₂ i

theorem dedupByTriple_not_seen (l : List ManifestIcon) :
    ∀ seen i, i ∈ dedupByTripleFirstSeen l seen → iconTriple i ∉ seen := by
  induction l with
  | nil => intro seen i h; simp [dedupByTripleFirstSeen] at h
  | cons j rest ih =>
    intro seen i h
    rw [dedupByTripleFirstSeen] at h
    by_cases hin : iconTriple j ∈ seen
    · rw [if_pos hin] at h; exact ih seen i h
    · rw [if_neg hin] at h
      rcases List.mem_cons.mp h with rfl | h2
      · exact hin
      · intro hmem
        exact ih _ i h2 (List.mem_cons_of_mem _ hmem)

theorem dedupByTriple_pairwise (l : List ManifestIcon) :
    ∀ seen, List.Pairwise (fun a b => iconTriple a ≠ iconTriple b)
      (dedupByTripleFirstSeen l seen) := by
  induction l with
  | nil => intro seen; exact List.Pairwise.nil
  | cons i rest ih =>
    intro seen
    rw [dedupByTripleFirstSeen]
    by_cases hin : iconTriple i ∈ seen
    · rw [if_pos hin]; exact ih seen
    · rw [if_neg hin]
      refine List.Pairwise.cons ?_ (ih _)
      intro b hb heq
      have := dedupByTriple_not_seen rest _ b hb
      exact this (heq ▸ List.mem_cons_self _ _)

theorem dedupByTriple_covers (l : List ManifestIcon) :
    ∀ seen i, i ∈ l →
      iconTriple i ∈ seen ∨
      iconTriple i ∈ (dedupByTripleFirstSeen l seen).map iconTriple := by
  induction l with
  | nil => intro seen i h; simp at h
  | cons j rest ih =>
    intro seen i h
    rw [dedupByTripleFirstSeen]
    rcases List.mem_cons.mp h with rfl | h2
    · by_cases hin : iconTriple i ∈ seen
      · exact Or.inl hin
      · rw [if_neg hin]
        exact Or.inr (by simp)
    · by_cases hin : iconTriple j ∈ seen
      · rw [if_pos hin]; exact ih seen i h2
      · rw [if_neg hin]
        rcases ih (iconTriple j :: seen) i h2 with hl | hr
        · rcases List.mem_cons.mp hl with heq | hseen
          · exact Or.inr (by simp [heq])
          · exact Or.inl hseen
        · exact Or.inr (by simp [hr])

/-- C2 (amended): provided no normalized source path and no size
string contains the separator character `|`, the output icon list is
exactly the triple-based first-seen dedup of the normalized input:
one entry per distinct (source, size, purpose) triple, first
occurrence retained, input order preserved. -/
theorem claim_C2 (icons : List ManifestIcon)
    (h : ∀ i ∈ icons, PipeFreeIcon i) :
    normalizeIcons (some icons) = dedupByTripleFirstSeen (icons.map normIcon) [] ∧
    List.Sublist (normalizeIcons (some icons)) (icons.map normIcon) ∧
    List.Pairwise (fun a b => iconTriple a ≠ iconTriple b) (normalizeIcons (some icons)) ∧
    (∀ i ∈ icons.map normIcon,
      iconTriple i ∈ (normalizeIcons (some icons)).map iconTriple) := by
  have hnorm : ∀ j ∈ icons.map normIcon, '|' ∉ j.src.data ∧ '|' ∉ j.sizes.data := by
    intro j hj
    obtain ⟨i, hi, rfl⟩ := List.mem_map.mp hj
    exact h i hi
  have heq : normalizeIcons (some icons) = dedupByTripleFirstSeen (icons.map normIcon) [] := by
    have := dedupIcons_eq_dedupByTriple (icons.map normIcon) [] hnorm (by simp)
    simpa [normalizeIcons] using this
  refine ⟨heq, ?_, ?_, ?_⟩
  · rw [heq]; exact dedupByTriple_sublist _ []
  · rw [heq]; exact dedupByTriple_pairwise _ []
  · intro i hi
    rw [heq]
    rcases dedupByTriple_covers (icons.map normIcon) [] i hi with habs | hok
    · simp at habs
    · exact hok

/-- C2 counterexample to the claim as frozen: two icons with distinct
(source, size, purpose) triples collide on the source's string key
(src `/a|b` size `c` versus src `/a` size `b|c`), so the second
distinct triple is dropped and the output has one entry instead of
one entry per distinct triple. -/
theorem claim_C2_counterexample :
    iconTriple { src := "/a|b", sizes := "c" }
      ≠ iconTriple { src := "/a", sizes := "b|c" } ∧
    normalizeIcons (some [{ src := "/a|b", sizes := "c" }, { src := "/a", sizes := "b|c" }])
      = [{ src := "/a|b", sizes := "c" }] := by
  constructor
  · decide
  · decide

/-- C2 witness: a duplicate-triple list without separator characters
is deduplicated to first occurrences in order. -/
theorem claim_C2_witness :
    (∀ i ∈ [({ src := "/a.png", sizes := "1x1" } : ManifestIcon),
            { src := "a.png", sizes := "1x1" },
            { src := "/b.png", sizes := "2x2" }], PipeFreeIcon i) ∧
    normalizeIcons (some [{ src := "/a.png", sizes := "1x1" },
                          { src := "a.png", sizes := "1x1" },
                          { src := "/b.png", sizes := "2x2" }])
      = dedupByTripleFirstSeen
          ([({ src := "/a.png", sizes := "1x1" } : ManifestIcon),
            { src := "a.png", sizes := "1x1" },
            { src := "/b.png", sizes := "2x2" }].map normIcon) [] :=
  ⟨by decide,
   (claim_C2 [{ src := "/a.png", sizes := "1x1" },
              { src := "a.png", sizes := "1x1" },
              { src := "/b.png", sizes := "2x2" }] (by decide)).1⟩

/-! ### C9: round trip of the serializer through the JSON reader -/

theorem skipWs_cons_ws (c : Char) (r : List Char) (h : isWsChar c = true) :
    skipWs (c :: r) = skipWs r := by
  rw [skipWs, if_pos h]

theorem skipWs_cons_not_ws (c : Char) (r : List Char) (h : isWsChar c = false) :
    skipWs (c :: r) = c :: r := by
  rw [skipWs, if_neg (by simp [h])]

theorem skipWs_append_ws (l r : List Char) (h : ∀ c ∈ l, isWsChar c = true) :
    skipWs (l ++ r) = skipWs r := by
  induction l with
  | nil => rfl
  | cons c ct ih =>
    rw [List.cons_append, skipWs_cons_ws c _ (h c (List.mem_cons_self _ _))]
    exact ih fun x hx => h x (List.mem_cons_of_mem _ hx)

theorem sp_all_ws (n : Nat) : ∀ c ∈ sp n, isWsChar c = true := by
  intro c hc
  rw [sp] at hc
  rw [List.eq_of_mem_replicate hc]
  rfl

theorem skipWs_sp_append (n : Nat) (r : List Char) : skipWs (sp n ++ r) = skipWs r :=
  skipWs_append_ws _ _ (sp_all_ws n)

theorem char_eq_of_toNat (c : Char) (n : Nat) (h : c.toNat = n) : c = Char.ofNat n := by
  rw [← h, Char.ofNat_toNat]

theorem isDigit_not_ws (c : Char) (h : c.isDigit = true) : isWsChar c = false := by
  have h1 : c ≠ ' ' := fun he => by rw [he] at h; exact absurd h (by decide)
  have h2 : c ≠ '\n' := fun he => by rw [he] at h; exact absurd h (by decide)
  have h3 : c ≠ '\t' := fun he => by rw [he] at h; exact absurd h (by decide)
  have h4 : c.toNat ≠ 13 := fun he => by
    rw [char_eq_of_toNat c 13 he] at h; exact absurd h (by decide)
  simp [isWsChar, h1, h2, h3, h4]

theorem isDigit_ne (c : Char) (h : c.isDigit = true) (d : Char) (hd : d.isDigit = false) :
    c ≠ d := by
  intro he
  rw [he] at h
  rw [h] at hd
  exact absurd hd (by simp)

theorem isWs_not_digit (c : Char) (h : isWsChar c = true) : c.isDigit = false := by
  by_cases h1 : c = ' '
  · rw [h1]; decide
  by_cases h2 : c = '\n'
  · rw [h2]; decide
  by_cases h3 : c = '\t'
  · rw [h3]; decide
  by_cases h4 : c.toNat = 13
  · rw [char_eq_of_toNat c 13 h4]; decide
  exfalso
  rw [isWsChar] at h
  simp [h1, h2, h3, h4] at h

theorem digitChar_isDigit (n : Nat) (h : n < 10) : (Nat.digitChar n).isDigit = true := by
  interval_cases n <;> decide

theorem digitChar_toNat (n : Nat) (h : n < 10) : (Nat.digitChar n).toNat = 48 + n := by
  interval_cases n <;> decide

theorem natChars_cons (n : Nat) : ∃ c t, natChars n = c :: t ∧ c.isDigit = true := by
  induction n using Nat.strong_induction_on with
  | _ n ihn =>
    rw [natChars]
    by_cases h : n < 10
    · rw [dif_pos h]
      exact ⟨_, _, rfl, digitChar_isDigit n h⟩
    · rw [dif_neg h]
      obtain ⟨c, t, he, hd⟩ := ihn (n / 10) (Nat.div_lt_self (by omega) (by omega))
      exact ⟨c, t ++ [Nat.digitChar (n % 10)], by rw [he]; rfl, hd⟩

theorem parseDigitsAux_cons_digit (acc : Nat) (c : Char) (cs : List Char)
    (h : c.isDigit = true) :
    parseDigitsAux acc (c :: cs) = parseDigitsAux (acc * 10 + (c.toNat - 48)) cs := by
  rw [parseDigitsAux, if_pos h]

theorem parseDigitsAux_stop (acc : Nat) (r : List Char) (h : HeadNotDigit r) :
    parseDigitsAux acc r = (acc, r) := by
  cases r with
  | nil => rfl
  | cons c cs =>
    have hc : c.isDigit = false := h
    rw [parseDigitsAux, if_neg (by simp [hc])]

theorem parseDigitsAux_natChars (n : Nat) : ∀ (acc : Nat) (r : List Char),
    parseDigitsAux acc (natChars n ++ r)
      = parseDigitsAux (acc * 10 ^ (natChars n).length + n) r := by
  induction n using Nat.strong_induction_on with
  | _ n ih =>
    intro acc r
    by_cases h : n < 10
    · rw [natChars, dif_pos h]
      rw [show Nat.digitChar n :: [] ++ r = Nat.digitChar n :: r from rfl]
      rw [parseDigitsAux_cons_digit _ _ _ (digitChar_isDigit n h), digitChar_toNat n h]
      congr 1
      rw [List.length_singleton, pow_one]
      omega
    · rw [natChars, dif_neg h]
      rw [List.append_assoc]
      rw [ih (n / 10) (Nat.div_lt_self (by omega) (by omega)) acc _]
      rw [show [Nat.digitChar (n % 10)] ++ r = Nat.digitChar (n % 10) :: r from rfl]
      rw [parseDigitsAux_cons_digit _ _ _ (digitChar_isDigit _ (Nat.mod_lt _ (by omega))),
        digitChar_toNat _ (Nat.mod_lt _ (by omega))]
      congr 1
      rw [List.length_append, List.length_singleton, pow_succ, ← mul_assoc]
      omega

theorem parseDigits_natChars (n : Nat) (r : List Char) (h : HeadNotDigit r) :
    parseDigitsAux 0 (natChars n ++ r) = (n, r) := by
  rw [parseDigitsAux_natChars, parseDigitsAux_stop _ _ h]
  simp

theorem hexVal_hexDigitChar (n : Nat) (h : n < 16) : hexVal (hexDigitChar n) = some n := by
  interval_cases n <;> decide

theorem parseHex4_low (a b : Nat) (ha : a < 16) (hb : b < 16) :
    parseHex4 '0' '0' (hexDigitChar a) (hexDigitChar b) = some (a * 16 + b) := by
  rw [parseHex4, show hexVal '0' = some 0 from by decide,
    hexVal_hexDigitChar a ha, hexVal_hexDigitChar b hb]
  norm_num

theorem parseStrBody_escapeChar (c : Char) (r : List Char) :
    parseStrBody (escapeChar c ++ r) = (parseStrBody r).map fun p => (c :: p.1, p.2) := by
  rw [escapeChar]
  by_cases h1 : c = '"'
  · rw [if_pos h1, h1]; rfl
  rw [if_neg h1]
  by_cases h2 : c = '\\'
  · rw [if_pos h2, h2]; rfl
  rw [if_neg h2]
  by_cases h3 : c.toNat = 8
  · rw [if_pos h3, char_eq_of_toNat c 8 h3]; rfl
  rw [if_neg h3]
  by_cases h4 : c.toNat = 12
  · rw [if_pos h4, char_eq_of_toNat c 12 h4]; rfl
  rw [if_neg h4]
  by_cases h5 : c = '\n'
  · rw [if_pos h5, h5]; rfl
  rw [if_neg h5]
  by_cases h6 : c.toNat = 13
  · rw [if_pos h6, char_eq_of_toNat c 13 h6]; rfl
  rw [if_neg h6]
  by_cases h7 : c.toNat = 9
  · rw [if_pos h7, char_eq_of_toNat c 9 h7]; rfl
  rw [if_neg h7]
  by_cases h8 : c.toNat < 32
  · rw [if_pos h8]
    have hd1 : c.toNat / 16 < 16 := by omega
    have hd2 : c.toNat % 16 < 16 := by omega
    have hstep : parseStrBody ('\\' :: 'u' :: '0' :: '0'
          :: hexDigitChar (c.toNat / 16) :: hexDigitChar (c.toNat % 16) :: r)
        = (match parseHex4 '0' '0' (hexDigitChar (c.toNat / 16)) (hexDigitChar (c.toNat % 16)) with
           | some n => (parseStrBody r).map fun p => (Char.ofNat n :: p.1, p.2)
           | none => none) := rfl
    show parseStrBody ('\\' :: 'u' :: '0' :: '0'
        :: hexDigitChar (c.toNat / 16) :: hexDigitChar (c.toNat % 16) :: r)
      = (parseStrBody r).map fun p => (c :: p.1, p.2)
    rw [hstep, parseHex4_low _ _ hd1 hd2]
    have hmod : c.toNat / 16 * 16 + c.toNat % 16 = c.toNat := by omega
    rw [hmod]
    show Option.map (fun p => (Char.ofNat c.toNat :: p.1, p.2)) (parseStrBody r)
      = Option.map (fun p => (c :: p.1, p.2)) (parseStrBody r)
    rw [Char.ofNat_toNat]
  · rw [if_neg h8]
    rw [show ([c] ++ r) = c :: r from rfl, parseStrBody, if_neg h1, if_neg h2]

theorem parseStrBody_escStr (cs : List Char) (r : List Char) :
    parseStrBody (escStr cs ++ '"' :: r) = some (cs, r) := by
  induction cs with
  | nil => rfl
  | cons c ct ih =>
    rw [escStr, List.append_assoc, parseStrBody_escapeChar, ih]
    rfl

/-- Every serialized value starts with a significant character: not
whitespace and none of the structural delimiters. -/
theorem stringifyV_head (ind : Nat) (v : JSON) :
    ∃ c t, stringifyV ind v = c :: t ∧ isWsChar c = false ∧ c ≠ ']' ∧ c ≠ '}' ∧ c ≠ ',' := by
  cases v with
  | null => exact ⟨'n', _, by rw [stringifyV], by decide, by decide, by decide, by decide⟩
  | bool b =>
    cases b with
    | true =>
      exact ⟨'t', _, by rw [stringifyV, if_pos rfl], by decide, by decide, by decide, by decide⟩
    | false =>
      exact ⟨'f', _, by rw [stringifyV, if_neg (by decide)],
        by decide, by decide, by decide, by decide⟩
  | str s => exact ⟨'"', _, by rw [stringifyV], by decide, by decide, by decide, by decide⟩
  | num i =>
    by_cases hi : i < 0
    · exact ⟨'-', _, by rw [stringifyV, intChars, if_pos hi],
        by decide, by decide, by decide, by decide⟩
    · obtain ⟨c, t, he, hd⟩ := natChars_cons i.natAbs
      exact ⟨c, t, by rw [stringifyV, intChars, if_neg hi, he],
        isDigit_not_ws c hd, isDigit_ne c hd ']' (by decide),
        isDigit_ne c hd '}' (by decide), isDigit_ne c hd ',' (by decide)⟩
  | arr l =>
    cases l with
    | nil => exact ⟨'[', _, by rw [stringifyV], by decide, by decide, by decide, by decide⟩
    | cons x xs =>
      exact ⟨'[', _, by rw [stringifyV], by decide, by decide, by decide, by decide⟩
  | obj l =>
    cases l with
    | nil => exact ⟨'{', _, by rw [stringifyV], by decide, by decide, by decide, by decide⟩
    | cons kv kvs =>
      obtain ⟨k, v⟩ := kv
      exact ⟨'{', _, by rw [stringifyV], by decide, by decide, by decide, by decide⟩

theorem skipWs_stringifyV (ind : Nat) (v : JSON) (r : List Char) :
    skipWs (stringifyV ind v ++ r) = stringifyV ind v ++ r := by
  obtain ⟨c, t, he, hws, _, _, _⟩ := stringifyV_head ind v
  rw [he, List.cons_append, skipWs_cons_not_ws _ _ hws]

theorem headNotDigit_items_tail (ind : Nat) (xs : List JSON) (ws : List Char) (cl : Char)
    (r : List Char) (hws : ∀ c ∈ ws, isWsChar c = true) (hcl : cl.isDigit = false) :
    HeadNotDigit (stringifyItems ind xs ++ (ws ++ cl :: r)) := by
  cases xs with
  | nil =>
    rw [stringifyItems, List.nil_append]
    cases ws with
    | nil => exact hcl
    | cons w wt => exact isWs_not_digit w (hws w (List.mem_cons_self _ _))
  | cons x2 xs2 =>
    rw [stringifyItems]
    exact (by decide : (',' : Char).isDigit = false)

theorem headNotDigit_members_tail (ind : Nat) (kvs : List (String × JSON)) (ws : List Char)
    (cl : Char) (r : List Char) (hws : ∀ c ∈ ws, isWsChar c = true)
    (hcl : cl.isDigit = false) :
    HeadNotDigit (stringifyMembers ind kvs ++ (ws ++ cl :: r)) := by
  cases kvs with
  | nil =>
    rw [stringifyMembers, List.nil_append]
    cases ws with
    | nil => exact hcl
    | cons w wt => exact isWs_not_digit w (hws w (List.mem_cons_self _ _))
  | cons kv kvs2 =>
    obtain ⟨k, v⟩ := kv
    rw [stringifyMembers]
    exact (by decide : (',' : Char).isDigit = false)

mutual
theorem fuelV_le_len (v : JSON) (ind : Nat) : fuelV v ≤ (stringifyV ind v).length := by
  cases v with
  | null => rw [fuelV, stringifyV]; simp
  | bool b => cases b <;> (rw [fuelV, stringifyV]; simp)
  | num i =>
    rw [fuelV, stringifyV, intChars]
    obtain ⟨c, t, he, _⟩ := natChars_cons i.natAbs
    by_cases hi : i < 0
    · rw [if_pos hi, he]; simp
    · rw [if_neg hi, he]; simp
  | str s => rw [fuelV, stringifyV]; simp
  | arr l =>
    cases l with
    | nil => rw [fuelV, fuelItems, stringifyV]; simp
    | cons x xs =>
      have h1 := fuelV_le_len x (ind + 2)
      have h2 := fuelItems_le_len xs (ind + 2)
      rw [fuelV, fuelItems, stringifyV]
      simp only [List.length_cons, List.length_append]
      omega
  | obj l =>
    cases l with
    | nil => rw [fuelV, fuelMembers, stringifyV]; simp
    | cons kv kvs =>
      obtain ⟨k, v⟩ := kv
      have h1 := fuelV_le_len v (ind + 2)
      have h2 := fuelMembers_le_len kvs (ind + 2)
      rw [fuelV, fuelMembers, stringifyV, memberChars]
      simp only [List.length_cons, List.length_append]
      omega

theorem fuelItems_le_len (xs : List JSON) (ind : Nat) :
    fuelItems xs ≤ (stringifyItems ind xs).length := by
  cases xs with
  | nil => rw [fuelItems, stringifyItems]; simp
  | cons x xs2 =>
    have h1 := fuelV_le_len x ind
    have h2 := fuelItems_le_len xs2 ind
    rw [fuelItems, stringifyItems]
    simp only [List.length_cons, List.length_append]
    omega

theorem fuelMembers_le_len (kvs : List (String × JSON)) (ind : Nat) :
    fuelMembers kvs ≤ (stringifyMembers ind kvs).length := by
  cases kvs with
  | nil => rw [fuelMembers, stringifyMembers]; simp
  | cons kv kvs2 =>
    obtain ⟨k, v⟩ := kv
    have h1 := fuelV_le_len v ind
    have h2 := fuelMembers_le_len kvs2 ind
    rw [fuelMembers, stringifyMembers, memberChars]
    simp only [List.length_cons, List.length_append]
    omega
end

theorem fuelV_pos (v : JSON) : 1 ≤ fuelV v := by
  cases v <;> rw [fuelV] <;> omega

theorem parseVal_n (F : Nat) (rest : List Char) :
    parseVal (F + 1) ('n' :: rest) = parseNullTail rest := by
  rw [parseVal, if_pos rfl]

theorem parseVal_t (F : Nat) (rest : List Char) :
    parseVal (F + 1) ('t' :: rest) = parseTrueTail rest := by
  rw [parseVal, if_neg (by decide), if_pos rfl]

theorem parseVal_f (F : Nat) (rest : List Char) :
    parseVal (F + 1) ('f' :: rest) = parseFalseTail rest := by
  rw [parseVal, if_neg (by decide), if_neg (by decide), if_pos rfl]

theorem parseVal_quote (F : Nat) (rest : List Char) :
    parseVal (F + 1) ('"' :: rest)
      = (parseStrBody rest).map fun p => (.str (String.mk p.1), p.2) := by
  rw [parseVal, if_neg (by decide), if_neg (by decide), if_neg (by decide), if_pos rfl]

theorem parseVal_lbrack (F : Nat) (rest : List Char) :
    parseVal (F + 1) ('[' :: rest) = parseArrTail F (skipWs rest) := by
  rw [parseVal, if_neg (by decide), if_neg (by decide), if_neg (by decide),
    if_neg (by decide), if_pos rfl]

theorem parseVal_lbrace (F : Nat) (rest : List Char) :
    parseVal (F + 1) ('{' :: rest) = parseObjTail F (skipWs rest) := by
  rw [parseVal, if_neg (by decide), if_neg (by decide), if_neg (by decide),
    if_neg (by decide), if_neg (by decide), if_pos rfl]

theorem parseVal_minus (F : Nat) (rest : List Char) :
    parseVal (F + 1) ('-' :: rest) = parseNegTail rest := by
  rw [parseVal, if_neg (by decide), if_neg (by decide), if_neg (by decide),
    if_neg (by decide), if_neg (by decide), if_neg (by decide), if_pos rfl]

theorem parseVal_digit (F : Nat) (c : Char) (rest : List Char) (h : c.isDigit = true) :
    parseVal (F + 1) (c :: rest)
      = some (.num ((parseDigitsAux 0 (c :: rest)).1 : Int),
          (parseDigitsAux 0 (c :: rest)).2) := by
  rw [parseVal, if_neg (isDigit_ne c h 'n' (by decide)),
    if_neg (isDigit_ne c h 't' (by decide)), if_neg (isDigit_ne c h 'f' (by decide)),
    if_neg (isDigit_ne c h '"' (by decide)), if_neg (isDigit_ne c h '[' (by decide)),
    if_neg (isDigit_ne c h '{' (by decide)), if_neg (isDigit_ne c h '-' (by decide)),
    if_pos h]

theorem memberChars_head (ind : Nat) (k : String) (v : JSON) :
    ∃ t, memberChars ind k v = '"' :: t := ⟨_, by rw [memberChars]⟩

theorem skipWs_memberChars (ind : Nat) (k : String) (v : JSON) (r : List Char) :
    skipWs (memberChars ind k v ++ r) = memberChars ind k v ++ r := by
  obtain ⟨t, he⟩ := memberChars_head ind k v
  rw [he, List.cons_append, skipWs_cons_not_ws _ _ (by decide)]

set_option maxHeartbeats 1000000 in
theorem parse_stringify_bundle : ∀ F : Nat,
    (∀ v ind r, fuelV v ≤ F → HeadNotDigit r →
        parseVal F (stringifyV ind v ++ r) = some (v, r)) ∧
    (∀ x xs ind ws r, fuelItems (x :: xs) ≤ F → (∀ c ∈ ws, isWsChar c = true) →
        parseItems F (stringifyV ind x ++ (stringifyItems ind xs ++ (ws ++ ']' :: r)))
          = some (x :: xs, r)) ∧
    (∀ k v kvs ind ws r, fuelMembers ((k, v) :: kvs) ≤ F →
        (∀ c ∈ ws, isWsChar c = true) →
        parseMembers F (memberChars ind k v ++ (stringifyMembers ind kvs ++ (ws ++ '}' :: r)))
          = some ((k, v) :: kvs, r)) := by
  intro F
  induction F with
  | zero =>
    refine ⟨?_, ?_, ?_⟩
    · intro v ind r hfuel _
      exact absurd hfuel (by have := fuelV_pos v; omega)
    · intro x xs ind ws r hfuel _
      rw [fuelItems] at hfuel
      exact absurd hfuel (by omega)
    · intro k v kvs ind ws r hfuel _
      rw [fuelMembers] at hfuel
      exact absurd hfuel (by omega)
  | succ F ih =>
    obtain ⟨ihV, ihI, ihM⟩ := ih
    refine ⟨?_, ?_, ?_⟩
    · -- parseVal
      intro v ind r hfuel hr
      cases v with
      | null =>
        rw [stringifyV]
        simp only [List.cons_append, List.nil_append]
        rw [parseVal_n]
        rfl
      | bool b =>
        cases b with
        | true =>
          rw [stringifyV, if_pos rfl]
          simp only [List.cons_append, List.nil_append]
          rw [parseVal_t]
          rfl
        | false =>
          rw [stringifyV, if_neg (by decide)]
          simp only [List.cons_append, List.nil_append]
          rw [parseVal_f]
          rfl
      | str s =>
        rw [stringifyV]
        simp only [List.cons_append, List.nil_append, List.append_assoc]
        rw [parseVal_quote, parseStrBody_escStr]
        rfl
      | num i =>
        by_cases hi : i < 0
        · rw [stringifyV, intChars, if_pos hi]
          simp only [List.cons_append]
          rw [parseVal_minus]
          obtain ⟨c, t, he, hd⟩ := natChars_cons i.natAbs
          rw [he]
          simp only [List.cons_append]
          rw [parseNegTail, if_pos hd]
          rw [show c :: (t ++ r) = natChars i.natAbs ++ r from by rw [he]; rfl]
          rw [parseDigits_natChars _ _ hr]
          show some (JSON.num (-((i.natAbs : Nat) : Int)), r) = some (JSON.num i, r)
          have hn : -((i.natAbs : Nat) : Int) = i := by omega
          rw [hn]
        · rw [stringifyV, intChars, if_neg hi]
          obtain ⟨c, t, he, hd⟩ := natChars_cons i.natAbs
          rw [he]
          simp only [List.cons_append]
          rw [parseVal_digit _ _ _ hd]
          rw [show c :: (t ++ r) = natChars i.natAbs ++ r from by rw [he]; rfl]
          rw [parseDigits_natChars _ _ hr]
          show some (JSON.num ((i.natAbs : Nat) : Int), r) = some (JSON.num i, r)
          have hn : ((i.natAbs : Nat) : Int) = i := by omega
          rw [hn]
      | arr l =>
        cases l with
        | nil =>
          rw [stringifyV]
          simp only [List.cons_append, List.nil_append]
          rw [parseVal_lbrack, skipWs_cons_not_ws _ _ (by decide)]
          rw [parseArrTail, if_pos rfl]
        | cons x xs =>
          rw [stringifyV]
          simp only [List.cons_append, List.nil_append, List.append_assoc]
          rw [parseVal_lbrack, skipWs_cons_ws _ _ (by decide), skipWs_sp_append,
            skipWs_stringifyV]
          obtain ⟨c, t, he, hws, hrb, hcb, hcomma⟩ := stringifyV_head (ind + 2) x
          rw [he]
          simp only [List.cons_append]
          rw [parseArrTail, if_neg hrb]
          rw [show c :: (t ++ (stringifyItems (ind + 2) xs ++ ('\n' :: (sp ind ++ (']' :: r)))))
                = stringifyV (ind + 2) x
                  ++ (stringifyItems (ind + 2) xs ++ (('\n' :: sp ind) ++ (']' :: r)))
              from by rw [he]; simp [List.cons_append, List.append_assoc]]
          have hfI : fuelItems (x :: xs) ≤ F := by
            rw [fuelV] at hfuel; omega
          have hwsI : ∀ c2 ∈ '\n' :: sp ind, isWsChar c2 = true := by
            intro c2 hc2
            rcases List.mem_cons.mp hc2 with rfl | hc2
            · decide
            · exact sp_all_ws ind c2 hc2
          rw [ihI x xs (ind + 2) ('\n' :: sp ind) r hfI hwsI]
          rfl
      | obj l =>
        cases l with
        | nil =>
          rw [stringifyV]
          simp only [List.cons_append, List.nil_append]
          rw [parseVal_lbrace, skipWs_cons_not_ws _ _ (by decide)]
          rw [parseObjTail, if_pos rfl]
        | cons kv kvs =>
          obtain ⟨k, v⟩ := kv
          rw [stringifyV]
          simp only [List.cons_append, List.nil_append, List.append_assoc]
          rw [parseVal_lbrace, skipWs_cons_ws _ _ (by decide), skipWs_sp_append,
            skipWs_memberChars]
          obtain ⟨t2, he2⟩ := memberChars_head (ind + 2) k v
          rw [he2]
          simp only [List.cons_append]
          rw [parseObjTail, if_neg (by decide : ¬ ('"' : Char) = '}')]
          rw [show '"' :: (t2 ++ (stringifyMembers (ind + 2) kvs
                  ++ ('\n' :: (sp ind ++ ('}' :: r)))))
                = memberChars (ind + 2) k v
                  ++ (stringifyMembers (ind + 2) kvs ++ (('\n' :: sp ind) ++ ('}' :: r)))
              from by rw [he2]; simp [List.cons_append, List.append_assoc]]
          have hfM : fuelMembers ((k, v) :: kvs) ≤ F := by
            rw [fuelV] at hfuel; omega
          have hwsM : ∀ c2 ∈ '\n' :: sp ind, isWsChar c2 = true := by
            intro c2 hc2
            rcases List.mem_cons.mp hc2 with rfl | hc2
            · decide
            · exact sp_all_ws ind c2 hc2
          rw [ihM k v kvs (ind + 2) ('\n' :: sp ind) r hfM hwsM]
          rfl
    · intro x xs ind ws r hfuel hws
      have hnd : HeadNotDigit (stringifyItems ind xs ++ (ws ++ ']' :: r)) :=
        headNotDigit_items_tail ind xs ws ']' r hws (by decide)
      rw [fuelItems] at hfuel
      have hfx : fuelV x ≤ F := by omega
      rw [parseItems, ihV x ind _ hfx hnd]
      dsimp only []
      cases xs with
      | nil =>
        rw [stringifyItems, List.nil_append, skipWs_append_ws _ _ hws,
          skipWs_cons_not_ws _ _ (by decide)]
        dsimp only []
        rw [if_neg (by decide : ¬ (']' : Char) = ','), if_pos rfl]
      | cons x2 xs2 =>
        rw [stringifyItems]
        simp only [List.cons_append, List.append_assoc]
        rw [skipWs_cons_not_ws _ _ (by decide : isWsChar ',' = false)]
        dsimp only []
        rw [if_pos rfl, skipWs_cons_ws _ _ (by decide), skipWs_sp_append,
          skipWs_stringifyV]
        have hf2 : fuelItems (x2 :: xs2) ≤ F := by omega
        rw [ihI x2 xs2 ind ws r hf2 hws]
        rfl
    · intro k v kvs ind ws r hfuel hws
      rw [fuelMembers] at hfuel
      have hfv : fuelV v ≤ F := by omega
      rw [memberChars]
      simp only [List.cons_append, List.append_assoc]
      rw [parseMembers, if_pos rfl, parseStrBody_escStr]
      dsimp only []
      rw [skipWs_cons_not_ws _ _ (by decide : isWsChar ':' = false)]
      dsimp only []
      rw [if_pos rfl, skipWs_cons_ws _ _ (by decide : isWsChar ' ' = true),
        skipWs_stringifyV]
      have hnd : HeadNotDigit (stringifyMembers ind kvs ++ (ws ++ '}' :: r)) :=
        headNotDigit_members_tail ind kvs ws '}' r hws (by decide)
      rw [ihV v ind _ hfv hnd]
      dsimp only []
      cases kvs with
      | nil =>
        rw [stringifyMembers, List.nil_append, skipWs_append_ws _ _ hws,
          skipWs_cons_not_ws _ _ (by decide)]
        dsimp only []
        rw [if_neg (by decide : ¬ ('}' : Char) = ','), if_pos rfl]
      | cons kv2 kvs2 =>
        obtain ⟨k2, v2⟩ := kv2
        rw [stringifyMembers]
        simp only [List.cons_append, List.append_assoc]
        rw [skipWs_cons_not_ws _ _ (by decide : isWsChar ',' = false)]
        dsimp only []
        rw [if_pos rfl, skipWs_cons_ws _ _ (by decide), skipWs_sp_append,
          skipWs_memberChars]
        have hf2 : fuelMembers ((k2, v2) :: kvs2) ≤ F := by omega
        rw [ihM k2 v2 kvs2 ind ws r hf2 hws]
        rfl

/-- Top-level round trip: the reader recovers any serialized value
followed by the trailing newline. -/
theorem parseJSONStr_stringify (v : JSON) :
    parseJSONStr (String.mk (stringifyV 0 v ++ [ '\n' ])) = some v := by
  rw [parseJSONStr]
  rw [show (String.mk (stringifyV 0 v ++ [ '\n' ])).data = stringifyV 0 v ++ [ '\n' ]
      from rfl]
  rw [skipWs_stringifyV]
  have hf : fuelV v ≤ (stringifyV 0 v ++ [ '\n' ]).length + 1 := by
    have h1 := fuelV_le_len v 0
    have h2 : (stringifyV 0 v ++ [ '\n' ]).length = (stringifyV 0 v).length + 1 := by simp
    omega
  rw [(parse_stringify_bundle ((stringifyV 0 v ++ [ '\n' ]).length + 1)).1 v 0 [ '\n' ]
    hf (show ('\n' : Char).isDigit = false from by decide)]
  dsimp only []
  rw [show skipWs [ '\n' ] = [] from by rw [skipWs_cons_ws _ _ (by decide)]; rfl]
  rfl

/-- C9: parsing the serialized payload as JSON recovers the document.
A JavaScript object's JSON denotation (`docToJSON`) drops
undefined-valued fields, exactly as `JSON.stringify` omits them; on
the defined fields the recovery is exact, key order included. -/
theorem claim_C9 (opts : ManifestOptions) (mode : Mode) (env : BuildEnv) :
    parseJSONStr (serialize opts mode env).payload
      = some (docToJSON (buildManifest opts mode env)) := by
  show parseJSONStr
      (String.mk (stringifyV 0 (docToJSON (buildManifest opts mode env)) ++ [ '\n' ]))
    = some (docToJSON (buildManifest opts mode env))
  exact parseJSONStr_stringify _

/-- C9 witness at the default options in production mode. -/
theorem claim_C9_witness :
    parseJSONStr (serialize {} .production {}).payload
      = some (docToJSON (buildManifest {} .production {})) :=
  claim_C9 {} .production {}

end PwaManifest
